import Mathlib

/-
Shallow embedding of the MEGA SDK local-filesystem layer (src/src/filesystem.cpp):
name escaping and unescaping, Unicode-normalization plumbing, the LocalPath
containment test, the FileAccess synchronous/asynchronous open protocol, and the
DirNotify event queues with their dedup and self-notification-suppression rules.

Byte strings (C++ `std::string` buffers) are modelled as `List Nat` with each
element a byte value < 256.  External collaborators (the platform OS binding's
stat/open results, the sync engine's node lookups, the Unicode NFC normalizer)
are passed in as explicit oracle values or functions, exactly at the points where
filesystem.cpp calls out to them.
-/

namespace mega

/-! ### FileSystemAccess: character predicates and `%xx` name escaping
    (filesystem.cpp lines 46-122) -/

/-- `FileSystemAccess::islchex` (line 46): is `c` a lowercase hex digit?
    `(c >= '0' && c <= '9') || (c >= 'a' && c <= 'f')`. -/
def islchex (c : Nat) : Bool :=
  (decide (48 ≤ c) && decide (c ≤ 57)) || (decide (97 ≤ c) && decide (c ≤ 102))

/-- The bytes of the C literal `"\\/:?\"<>|*"` used by `islocalfscompatible`. -/
def badchars : List Nat := [92, 47, 58, 63, 34, 60, 62, 124, 42]

/-- `FileSystemAccess::islocalfscompatible` (line 52): is byte `c` allowed in
    local fs names?  `c >= ' ' && !strchr("\\/:?\"<>|*", c)`. -/
def islocalfscompatible (c : Nat) : Bool :=
  decide (32 ≤ c) && !(badchars.contains c)

/-- Modelled from the spec: `MegaClient::hexval` is declared outside `src/`
    (megaclient.h); the spec fixes the escapes to 3-character lowercase-hex
    `%xx` sequences, so the decoder is the standard lowercase-hex digit value
    (`c > '9' ? c - 'W' : c - '0'`), matching every digit `islchex` accepts. -/
def hexval (c : Nat) : Nat :=
  if 57 < c then c - 87 else c - 48

/-- One lowercase hex digit of `sprintf("%%%02x", c)`: `'0' + d` below ten,
    `'a' + (d - 10)` otherwise. -/
def hexdigit (d : Nat) : Nat :=
  if d < 10 then 48 + d else 87 + d

/-- The replacement `escapefsincompatible` performs at one byte: a compatible
    byte is kept, an incompatible byte `c` becomes the three bytes `%xx`
    (line 79-83 of filesystem.cpp). -/
def escChar (c : Nat) : List Nat :=
  if islocalfscompatible c then [c] else [37, hexdigit (c / 16), hexdigit (c % 16)]

/-- The backwards in-place loop of `escapefsincompatible` (lines 75-84) replaces
    every occurrence of a bad byte with its `%xx` escape; because the loop walks
    from the end, each original byte is rewritten independently, which is this
    per-byte concatenation. -/
def escapeAll : List Nat → List Nat
  | [] => []
  | c :: rest => escChar c ++ escapeAll rest

/-- `FileSystemAccess::escapefsincompatible` (lines 58-85): the names `".."` and
    `"."` are replaced wholesale by `"%2e%2e"` / `"%2e"`; otherwise every
    incompatible byte is escaped. -/
def escapefsincompatible (name : List Nat) : List Nat :=
  if name = [46, 46] then [37, 50, 101, 37, 50, 101]
  else if name = [46] then [37, 50, 101]
  else escapeAll name

/-- The byte decoded by the unescape loop at position `i`:
    `(hexval(name[i+1]) << 4) + hexval(name[i+2])` (line 104).  Out-of-range
    reads see the C string's NUL terminator, hence the default 0. -/
def decodeAt (s : List Nat) (i : Nat) : Nat :=
  hexval (s.getD (i + 1) 0) * 16 + hexval (s.getD (i + 2) 0)

/-- The guard of the unescape loop body (lines 102-106): position `i` holds a
    well-formed `%xx` with lowercase hex digits whose decoded byte is itself
    filesystem-incompatible. -/
def isPat (s : List Nat) (i : Nat) : Bool :=
  (s.getD i 0 == 37) && islchex (s.getD (i + 1) 0) && islchex (s.getD (i + 2) 0)
    && !(islocalfscompatible (decodeAt s i))

/-- One body execution of the unescape loop at index `i`: if the guard holds,
    `name->replace(i, 3, &c, 1)` — splice the decoded byte over the triplet. -/
def unescStep (s : List Nat) (i : Nat) : List Nat :=
  if isPat s i then s.take i ++ decodeAt s i :: s.drop (i + 3) else s

/-- The unescape loop (lines 99-111): `for (int i = int(size) - 2; i-- > 0; )`
    runs the body at indices `size - 3, size - 4, ..., 1, 0` on the string as it
    mutates.  `unescLoop s i` runs the body at `i, i-1, ..., 0`. -/
def unescLoop : List Nat → Nat → List Nat
  | s, 0 => unescStep s 0
  | s, i + 1 => unescLoop (unescStep s (i + 1)) i

/-- `FileSystemAccess::unescapefsincompatible` (lines 87-112): the reserved
    names `"%2e%2e"` / `"%2e"` are restored wholesale; otherwise the loop body
    runs at indices `size-3 .. 0` (it runs at all only when `size ≥ 3`). -/
def unescapefsincompatible (name : List Nat) : List Nat :=
  if name = [37, 50, 101, 37, 50, 101] then [46, 46]
  else if name = [37, 50, 101] then [46]
  else if 3 ≤ name.length then unescLoop name (name.length - 3)
  else name

/-- `FileSystemAccess::name2local` (lines 115-122): escape forbidden characters,
    then convert to local encoding.  `path2local` is the platform conversion
    (pure virtual), supplied as the function argument `p2l`. -/
def name2local (p2l : List Nat → List Nat) (filename : List Nat) : List Nat :=
  p2l (escapefsincompatible filename)

/-- `FileSystemAccess::local2name` (lines 161-168): convert from local encoding
    (platform `local2path`, supplied as `l2p`), then unescape. -/
def local2name (l2p : List Nat → List Nat) (filename : List Nat) : List Nat :=
  unescapefsincompatible (l2p filename)

/-- Does `s` contain, at any position, a well-formed lowercase-hex `%xx`
    whose decoded byte is filesystem-incompatible?  (Positions at or beyond
    `s.length` can never match: the guard needs a `%` byte there.) -/
def hasPattern (s : List Nat) : Bool :=
  (List.range s.length).any fun i => isPat s i

/-! ### FileSystemAccess::normalize (filesystem.cpp lines 124-158)
    `utf8proc_NFC` is the external Unicode normalizer; per the spec it is an
    uninterpreted pure function bytes → bytes | failure, passed here as `nfc`.
    Its `some` value models the NUL-terminated buffer the C code appends, i.e.
    the delivered (NUL-free) normalized run. -/

/-- The scan loop of `normalize`: a NUL byte is copied through one at a time;
    a non-NUL byte starts a maximal NUL-free run (the C substring up to the
    terminator), which is normalized as a whole; a `NULL` return from the
    normalizer aborts everything (`filename->clear()`), modelled as `none`. -/
def normalizeLoop (nfc : List Nat → Option (List Nat)) : List Nat → Option (List Nat)
  | [] => some []
  | c :: rest =>
    if c = 0 then (normalizeLoop nfc rest).map fun r => 0 :: r
    else
      match nfc (c :: rest.takeWhile fun b => b != 0) with
      | none => none
      | some out => (normalizeLoop nfc (rest.dropWhile fun b => b != 0)).map fun r => out ++ r
termination_by s => s.length
decreasing_by
  · simp
  · have h : ∀ l : List Nat, (l.dropWhile fun b => b != 0).length ≤ l.length := by
      intro l
      induction l with
      | nil => simp
      | cons a t ih =>
        by_cases h2 : (a != 0) = true <;> simp [List.dropWhile_cons, h2] <;> omega
    simpa [Nat.lt_succ_iff] using h rest

/-- `FileSystemAccess::normalize`: the final buffer — the reassembled runs on
    success, the cleared (empty) string when any run failed to normalize. -/
def normalize (nfc : List Nat → Option (List Nat)) (filename : List Nat) : List Nat :=
  (normalizeLoop nfc filename).getD []

/-- Reassembly of normalized runs with each NUL separator preserved in place:
    the spec-side description of what `normalize` produces from the pieces
    between NUL bytes. -/
def joinWithNul : List (List Nat) → List Nat
  | [] => []
  | [r] => r
  | r :: rs => r ++ 0 :: joinWithNul rs

/-! ### LocalPath (filesystem.cpp lines 599-760) -/

/-- `LocalPath`: path bytes in the platform-native local encoding. -/
structure LocalPath where
  localpath : List Nat
deriving DecidableEq

/-- `LocalPath::isContainingPathOf` (lines 754-760): `this` (here `self`) is the
    candidate parent, `path` the candidate child; `localseparator` is the
    platform separator byte sequence of the `FileSystemAccess` argument.
    The two `memcmp`s become prefix comparisons over the same byte counts. -/
def LocalPath.isContainingPathOf (self path : LocalPath) (localseparator : List Nat) : Bool :=
  decide (self.localpath.length ≤ path.localpath.length)
    && (path.localpath.take self.localpath.length == self.localpath)
    && ((path.localpath.length == self.localpath.length)
        || ((path.localpath.drop self.localpath.length).take localseparator.length
              == localseparator))

/-! ### DirNotify (filesystem.cpp lines 170-249)
    The notification-queue entry layout and the queue names DIREVENTS / EXTRA
    are declared in the missing header; modelled from the spec's data model
    ("debounce timestamp (0 = process immediately), a reference to the local
    tree node, a path relative to that node"; a primary directory-events queue
    and an auxiliary queue). -/

/-- The queue names: the primary directory-events queue and the auxiliary
    platform-specific queue. -/
inductive NotifyQueue
  | DIREVENTS
  | EXTRA
deriving DecidableEq

/-- One notification-queue entry: debounce timestamp (`Waiter::ds` ticks,
    0 = immediate), the `LocalNode*` the event concerns (a non-owning pointer,
    modelled as an optional node id; `none` is NULL), and the relative path. -/
structure Notification where
  timestamp : Nat
  localnode : Option Nat
  path : List Nat
deriving DecidableEq

/-- The per-queue FIFO state `notifyq[...]` of a `DirNotify`. -/
structure NotifyQueues where
  direvents : List Notification
  extra : List Notification
deriving DecidableEq

/-- Read `notifyq[q]`. -/
def getq (nq : NotifyQueues) : NotifyQueue → List Notification
  | .DIREVENTS => nq.direvents
  | .EXTRA => nq.extra

/-- Write `notifyq[q]`. -/
def setq (nq : NotifyQueues) : NotifyQueue → List Notification → NotifyQueues
  | .DIREVENTS, v => { nq with direvents := v }
  | .EXTRA, v => { nq with extra := v }

/-- A `DirNotify` with both queues empty. -/
def emptyNQ : NotifyQueues := ⟨[], []⟩

/-- `nodetype_t` values used by the self-notification check (`FILENODE` is the
    file type; folders and unknown entries are the others). -/
inductive nodetype
  | TYPE_UNKNOWN
  | FILENODE
  | FOLDERNODE
deriving DecidableEq

/-- The outcome of `fa->fopen(tmppath, false, false)` inside `notify`
    (line 213): the stat of the on-disk path the event addresses, together
    with the fields of the `FileAccess` the check reads afterwards. -/
structure StatResult where
  success : Bool
  retry : Bool
  fsidvalid : Bool
  fsid : Nat
  ftype : nodetype
  mtime : Int
  size : Int
deriving DecidableEq

/-- The remote `Node` a `LocalNode` tracks: its back-reference `node->localnode`
    (as an optional `LocalNode` id), its `'n'` name attribute lookup result,
    and its content fingerprint (fingerprints are compared only for equality,
    so they are modelled as opaque `Nat` values). -/
structure NodeInfo where
  localnodeBack : Option Nat
  attrN : Option (List Nat)
  fingerprint : Nat
deriving DecidableEq

/-- The `LocalNode` returned by `sync->localnodebypath(l, path)` (line 214):
    its identity, tracked remote node, type, fingerprint, presentation name,
    and cached fsid/mtime/size. -/
structure LocalNodeInfo where
  id : Nat
  node : Option NodeInfo
  ntype : nodetype
  fingerprint : Nat
  name : List Nat
  fsid : Nat
  mtime : Int
  size : Int
deriving DecidableEq

/-- The sync-engine context `notify` consults for the self-notification check:
    whether the initial subtree scan is still running (`sync->initializing`),
    the stat oracle for the event's on-disk path, and the local-node lookup
    result for the event's (node, path) address. -/
structure SyncEnv where
  initialScan : Bool
  stat : StatResult
  localnodebypath : Option LocalNodeInfo
deriving DecidableEq

/-- The dedup guard of `notify` (lines 186-189): the queue is one of the named
    queues, is non-empty, and its most recent entry refers to the same
    (localnode, path). -/
def dedupHit (cur : List Notification) (q : NotifyQueue) (l : Option Nat)
    (path : List Nat) : Bool :=
  (q == .DIREVENTS || q == .EXTRA) && !cur.isEmpty
    && (match cur.getLast? with
        | some e => e.localnode == l && e.path == path
        | none => false)

/-- The dedup refresh (lines 191-194): only a tail entry whose timestamp is
    non-zero is re-stamped (`immediate ? 0 : Waiter::ds`). -/
def refreshTail (cur : List Notification) (immediate : Bool) (ds : Nat) :
    List Notification :=
  match cur.getLast? with
  | some e =>
      cur.dropLast
        ++ [{ e with timestamp := if e.timestamp ≠ 0 then (if immediate then 0 else ds)
                                  else e.timestamp }]
  | none => cur

/-- The self-notification predicate (lines 215-221): drop when either the node
    is absent and the stat failed non-retryably, or the node exists, the stat
    succeeded, the tracked back-reference still points here, fingerprints agree
    for files, the tracked `'n'` name matches, the fsid is valid and matches,
    the entry types match, and (for files) mtime and size match. -/
def selfSuppressed (env : SyncEnv) : Bool :=
  match env.localnodebypath with
  | none => !env.stat.success && !env.stat.retry
  | some ll =>
      env.stat.success
        && (match ll.node with
            | none => false
            | some nd =>
                (nd.localnodeBack == some ll.id)
                  && (!(ll.ntype == nodetype.FILENODE) || ll.fingerprint == nd.fingerprint)
                  && (match nd.attrN with
                      | some nm => nm == ll.name
                      | none => false)
                  && env.stat.fsidvalid && env.stat.fsid == ll.fsid
                  && env.stat.ftype == ll.ntype
                  && (!(ll.ntype == nodetype.FILENODE)
                      || (env.stat.mtime == ll.mtime && env.stat.size == ll.size)))

/-- `DirNotify::notify` (lines 183-238, ENABLE_SYNC build): dedup against the
    queue tail, then — for non-immediate DIREVENTS events once the initial scan
    has finished — the self-notification suppression, then append with
    timestamp `immediate ? 0 : Waiter::ds` (`ds` is the debounce clock tick).
    `sync` is NULL (`none`) for the default watcher; the write to
    `sync->client->syncactivity` (line 230), a flag on the external engine
    object, is not part of the queue state and is not modelled. -/
def notify (nq : NotifyQueues) (sync : Option SyncEnv) (ds : Nat) (q : NotifyQueue)
    (l : Option Nat) (path : List Nat) (immediate : Bool) : NotifyQueues :=
  let cur := getq nq q
  if dedupHit cur q l path then
    setq nq q (refreshTail cur immediate ds)
  else if !immediate
      && (match sync with
          | some env => !env.initialScan && q == NotifyQueue.DIREVENTS && selfSuppressed env
          | none => false) then
    nq
  else
    setq nq q (cur ++ [⟨if immediate then 0 else ds, l, path⟩])

/-! ### FileAccess (filesystem.cpp lines 256-554)
    `sysstat` / `sysopen` / `sysclose` / `updatelocalname` are the pure-virtual
    platform bindings; their outcomes are supplied as oracle arguments:
    `statRes = none` is a failed stat (fields untouched), `some (mt, sz)` a
    successful one writing those values; `sysopenRes` is `sysopen`'s return. -/

/-- The mutable `FileAccess` fields the modelled operations touch.
    `nonblocking_localname` is resized to length 1 by `fopen`, so emptiness
    records whether the access was ever placed in non-blocking mode;
    `numAsyncReads` is a C `int`, hence `Int`. -/
structure FAState where
  nonblocking_localname : List Nat
  localname : List Nat
  mtime : Int
  size : Int
  retry : Bool
  isAsyncOpened : Bool
  numAsyncReads : Int
deriving DecidableEq

/-- A freshly constructed `FileAccess` (lines 256-261): the constructor sets
    `isAsyncOpened = false` and `numAsyncReads = 0`; the remaining fields are
    uninitialized in C++ and given arbitrary defaults here. -/
def initFA : FAState :=
  { nonblocking_localname := [], localname := [], mtime := 0, size := 0,
    retry := false, isAsyncOpened := false, numAsyncReads := 0 }

/-- `FileAccess::fopen(LocalPath&)` (lines 270-276): resize
    `nonblocking_localname` to 1 byte, remember the path (`updatelocalname`),
    and stat into the cached `mtime` / `size`. -/
def fopen (fa : FAState) (name : List Nat) (statRes : Option (Int × Int)) :
    Bool × FAState :=
  let fa1 := { fa with nonblocking_localname := [0], localname := name }
  match statRes with
  | some (mt, sz) => (true, { fa1 with mtime := mt, size := sz })
  | none => (false, fa1)

/-- `FileAccess::openf` (lines 285-312): a no-op success unless in non-blocking
    mode; otherwise re-stat, fail on stat error, fail permanently (retry :=
    false) with the cache updated if mtime or size changed, else `sysopen()`. -/
def openf (fa : FAState) (statRes : Option (Int × Int)) (sysopenRes : Bool) :
    Bool × FAState :=
  if fa.nonblocking_localname.isEmpty then (true, fa)
  else
    match statRes with
    | none => (false, fa)
    | some (cm, cs) =>
        if cm ≠ fa.mtime ∨ cs ≠ fa.size then
          (false, { fa with mtime := cm, size := cs, retry := false })
        else (sysopenRes, fa)

/-- `FileAccess::asyncopenf` (lines 356-398): count the new concurrent reader,
    then succeed trivially if not in non-blocking mode or already open;
    otherwise the same staleness check as `openf`, then the real
    `sysopen(true)`, recording success in `isAsyncOpened`. -/
def asyncopenf (fa : FAState) (statRes : Option (Int × Int)) (sysopenRes : Bool) :
    Bool × FAState :=
  let fa1 := { fa with numAsyncReads := fa.numAsyncReads + 1 }
  if fa1.nonblocking_localname.isEmpty then (true, fa1)
  else if fa1.isAsyncOpened then (true, fa1)
  else
    match statRes with
    | none => (false, fa1)
    | some (cm, cs) =>
        if cm ≠ fa1.mtime ∨ cs ≠ fa1.size then
          (false, { fa1 with mtime := cm, size := cs, retry := false })
        else if sysopenRes then (true, { fa1 with isAsyncOpened := true })
        else (false, fa1)

/-- `FileAccess::asyncclosef` (lines 400-409): drop one concurrent reader and
    `sysclose()` the real handle exactly when it was open and this was the last
    reader. -/
def asyncclosef (fa : FAState) : FAState :=
  let fa1 := { fa with numAsyncReads := fa.numAsyncReads - 1 }
  if fa1.isAsyncOpened && fa1.numAsyncReads == 0 then { fa1 with isAsyncOpened := false }
  else fa1

/-- `AsyncIOContext::op` values (NONE / OPEN / READ / WRITE). -/
inductive asyncop
  | NONE
  | OPEN
  | READ
  | WRITE
deriving DecidableEq

/-- Modelled from the spec: the `AsyncIOContext` access-rights bitmask constants
    are declared in the missing header; only their distinctness matters here. -/
def ACCESS_NONE : Nat := 0

/-- Modelled from the spec: read access bit. -/
def ACCESS_READ : Nat := 1

/-- Modelled from the spec: write access bit. -/
def ACCESS_WRITE : Nat := 2

/-- One outstanding asynchronous operation (lines 556-571 constructor).
    The buffer / waiter / callback / fa pointers are not data; instead `cbLog`
    instruments the completion protocol: each invocation of the stored user
    callback appends the value of `finished` at the moment of the call, so
    "callback fired exactly once, when finished became true" is `cbLog = [true]`
    on a context that started with `cbLog = []` and `finished = false`. -/
structure AsyncIOContext where
  op : asyncop
  access : Nat
  pos : Int
  len : Nat
  pad : Nat
  finished : Bool
  failed : Bool
  retry : Bool
  cbLog : List Bool
deriving DecidableEq

/-- `AsyncIOContext::AsyncIOContext()` (lines 556-571). -/
def newasynccontext : AsyncIOContext :=
  { op := .NONE, access := ACCESS_NONE, pos := 0, len := 0, pad := 0,
    finished := false, failed := false, retry := false, cbLog := [] }

/-- `context->userCallback(context->userData)`: the stored callback (always
    `asyncopfinished`, installed by every constructor path) runs; the log
    records the completion flag it observes. -/
def invokeCallback (ctx : AsyncIOContext) : AsyncIOContext :=
  { ctx with cbLog := ctx.cbLog ++ [ctx.finished] }

/-- `FileAccess::asyncfopen(LocalPath&)` (lines 331-354): enter non-blocking
    mode, build an OPEN/READ context (its `pos` is the `size` cached before the
    stat), stat synchronously into the cache with `failed = !sysstat(...)`,
    mark finished, and fire the callback. -/
def asyncfopen1 (fa : FAState) (f : List Nat) (statRes : Option (Int × Int)) :
    AsyncIOContext × FAState :=
  let fa1 := { fa with nonblocking_localname := [0], localname := f }
  let ctx := { newasynccontext with
                op := asyncop.OPEN, access := ACCESS_READ, len := f.length,
                pos := fa1.size }
  let fa2 := match statRes with
             | some (mt, sz) => { fa1 with mtime := mt, size := sz }
             | none => fa1
  let ctx := { ctx with failed := statRes.isNone, retry := fa2.retry, finished := true }
  (invokeCallback ctx, fa2)

/-- `FileAccess::asyncsysopen` (lines 432-441), the no-native-backend default:
    fail permanently, mark finished, fire the callback. -/
def asyncsysopen (ctx : AsyncIOContext) : AsyncIOContext :=
  invokeCallback { ctx with failed := true, retry := false, finished := true }

/-- `FileAccess::asyncfopen(LocalPath&, bool, bool, m_off_t)` (lines 411-430):
    build an OPEN context with the requested access bits and hand it to
    `asyncsysopen`.  The base implementation never touches the `FileAccess`
    fields on this path. -/
def asyncfopen2 (f : List Nat) (read write : Bool) (pos : Int) : AsyncIOContext :=
  asyncsysopen
    { newasynccontext with
        op := asyncop.OPEN,
        access := ((if read then ACCESS_READ else 0) |||
                   (if write then ACCESS_WRITE else 0)),
        len := f.length, pos := pos }

/-- `FileAccess::asyncsysread` (lines 473-482), the default: fail permanently,
    mark finished, fire the callback. -/
def asyncsysread (ctx : AsyncIOContext) : AsyncIOContext :=
  invokeCallback { ctx with failed := true, retry := false, finished := true }

/-- `FileAccess::asyncfread` (lines 443-471): build a READ context; if
    `asyncopenf` fails, complete it synchronously as failed with the access's
    current retry flag; otherwise the default `asyncsysread` completes it. -/
def asyncfread (fa : FAState) (len pad : Nat) (pos : Int)
    (statRes : Option (Int × Int)) (sysopenRes : Bool) :
    AsyncIOContext × FAState :=
  let ctx := { newasynccontext with op := asyncop.READ, pos := pos, len := len, pad := pad }
  match asyncopenf fa statRes sysopenRes with
  | (ok, fa1) =>
      if !ok then
        (invokeCallback { ctx with failed := true, retry := fa1.retry, finished := true }, fa1)
      else (asyncsysread ctx, fa1)

/-- `FileAccess::asyncsyswrite` (lines 502-511), the default: fail permanently,
    mark finished, fire the callback. -/
def asyncsyswrite (ctx : AsyncIOContext) : AsyncIOContext :=
  invokeCallback { ctx with failed := true, retry := false, finished := true }

/-- `FileAccess::asyncfwrite` (lines 484-500): build a WRITE context and hand
    it to the default `asyncsyswrite`. -/
def asyncfwrite (len : Nat) (pos : Int) : AsyncIOContext :=
  asyncsyswrite { newasynccontext with op := asyncop.WRITE, pos := pos, len := len }

/-- `AsyncIOContext::~AsyncIOContext` (lines 573-582) as it acts on the issuing
    `FileAccess`: a READ context's destruction calls `fa->asyncclosef()`.
    (`finish()` only blocks until completion is observed; it changes no
    `FileAccess` field.) -/
def destroyAsyncIOContext (ctx : AsyncIOContext) (fa : FAState) : FAState :=
  if ctx.op = asyncop.READ then asyncclosef fa else fa

/-- The literal condition list of the suppression claim as stated (C3): it
    omits the `fa->fsidvalid` and `fa->type == ll->type` checks and compares
    mtime and size for every node type, scoping only the fingerprint test to
    file nodes.  Kept separate from `selfSuppressed` (the code's condition) so
    the two can be compared. -/
def suppressClaimC3 (env : SyncEnv) : Bool :=
  match env.localnodebypath with
  | none => !env.stat.success && !env.stat.retry
  | some ll =>
      env.stat.success
        && (match ll.node with
            | none => false
            | some nd =>
                (nd.localnodeBack == some ll.id)
                  && (match nd.attrN with
                      | some nm => nm == ll.name
                      | none => false)
                  && (env.stat.fsid == ll.fsid)
                  && (env.stat.mtime == ll.mtime) && (env.stat.size == ll.size)
                  && (!(ll.ntype == nodetype.FILENODE)
                      || ll.fingerprint == nd.fingerprint))

/-- The corrected suppression condition, stated claim-style: node absent with a
    non-retryable stat failure, or node present with the stat succeeding, the
    back-reference intact, the tracked name matching, a valid and matching
    fsid, matching entry types, and — for file nodes — matching fingerprint,
    mtime and size. -/
def suppressSpecC3 (env : SyncEnv) : Prop :=
  (env.localnodebypath = none ∧ env.stat.success = false ∧ env.stat.retry = false)
  ∨ (∃ ll nd, env.localnodebypath = some ll ∧ ll.node = some nd
      ∧ env.stat.success = true
      ∧ nd.localnodeBack = some ll.id
      ∧ nd.attrN = some ll.name
      ∧ env.stat.fsidvalid = true ∧ env.stat.fsid = ll.fsid
      ∧ env.stat.ftype = ll.ntype
      ∧ (ll.ntype = nodetype.FILENODE →
          ll.fingerprint = nd.fingerprint ∧ env.stat.mtime = ll.mtime
            ∧ env.stat.size = ll.size))

/-! ## Helper lemmas -/

/-- Reading a queue just written. -/
lemma getq_setq (nq : NotifyQueues) (q : NotifyQueue) (v : List Notification) :
    getq (setq nq q v) q = v := by
  cases q <;> rfl

/-- Appending an entry to one of the queues changes the `DirNotify` state. -/
lemma setq_append_ne (nq : NotifyQueues) (q : NotifyQueue) (e : Notification) :
    setq nq q (getq nq q ++ [e]) ≠ nq := by
  intro h
  have hlen := congrArg (fun x => (getq x q).length) h
  simp only [getq_setq, List.length_append, List.length_singleton] at hlen
  omega

/-- When the queue tail matches the notified (node, path), `notify` takes the
    dedup branch regardless of the rest of its arguments. -/
lemma notify_dedup (nq : NotifyQueues) (sync : Option SyncEnv) (ds : Nat)
    (q : NotifyQueue) (l : Option Nat) (path : List Nat) (immediate : Bool)
    (e : Notification) (he : (getq nq q).getLast? = some e)
    (hl : e.localnode = l) (hp : e.path = path) :
    notify nq sync ds q l path immediate = setq nq q (refreshTail (getq nq q) immediate ds) := by
  have hne : (getq nq q).isEmpty = false := by
    cases hgq : getq nq q with
    | nil => rw [hgq] at he; simp at he
    | cons a t => simp
  have hd : dedupHit (getq nq q) q l path = true := by
    unfold dedupHit
    cases q <;> simp [hne, he, hl, hp]
  unfold notify
  simp only [hd, if_true]

/-- The suppression condition of C3, claim-style, agrees with the code's
    predicate. -/
lemma suppressSpecC3_iff (env : SyncEnv) :
    suppressSpecC3 env ↔ selfSuppressed env = true := by
  unfold suppressSpecC3 selfSuppressed
  cases hll : env.localnodebypath with
  | none => simp
  | some ll =>
      cases hnd : ll.node with
      | none => simp [hnd]
      | some nd =>
          cases hat : nd.attrN with
          | none => simp [hnd, hat]
          | some nm =>
              cases hty : ll.ntype <;>
                simp [hnd, hat, hty, and_assoc] <;>
                  tauto

/-- Every escape digit is a lowercase hex digit. -/
lemma hexdigit_islchex : ∀ n, n < 16 → islchex (hexdigit n) = true := by
  decide

/-- Decoding inverts the escape digit. -/
lemma hexval_hexdigit : ∀ n, n < 16 → hexval (hexdigit n) = n := by
  decide

/-- An escape digit is never the percent byte. -/
lemma hexdigit_ne_37 : ∀ n, n < 16 → hexdigit n ≠ 37 := by
  decide

set_option maxRecDepth 2048 in
/-- An incompatible byte is never the percent byte (37 is compatible). -/
lemma incompat_ne_37 : ∀ c, c < 256 → islocalfscompatible c = false → c ≠ 37 := by
  decide

/-- Only the escape digit of 2 is the byte 50. -/
lemma hexdigit_eq_50 {n : Nat} (h : hexdigit n = 50) : n = 2 := by
  unfold hexdigit at h
  split at h <;> omega

/-- Only the escape digit of 14 is the byte 101. -/
lemma hexdigit_eq_101 {n : Nat} (h : hexdigit n = 101) : n = 14 := by
  unfold hexdigit at h
  split at h <;> omega

/-- Indexing with a default shifts across a left factor. -/
lemma getD_append_len (u v : List Nat) (k : Nat) :
    (u ++ v).getD (u.length + k) 0 = v.getD k 0 := by
  induction u with
  | nil => simp
  | cons a t ih =>
      have harith : (a :: t).length + k = (t.length + k) + 1 := by
        simp [List.length_cons]
        omega
      rw [harith, List.cons_append, List.getD_cons_succ, ih]

/-- The unescape-loop guard shifts across a left factor. -/
lemma isPat_append_len (u v : List Nat) (k : Nat) :
    isPat (u ++ v) (u.length + k) = isPat v k := by
  unfold isPat decodeAt
  have h0 := getD_append_len u v k
  have h1 : (u ++ v).getD (u.length + k + 1) 0 = v.getD (k + 1) 0 := by
    have : u.length + k + 1 = u.length + (k + 1) := by omega
    rw [this, getD_append_len]
  have h2 : (u ++ v).getD (u.length + k + 2) 0 = v.getD (k + 2) 0 := by
    have : u.length + k + 2 = u.length + (k + 2) := by omega
    rw [this, getD_append_len]
  rw [h0, h1, h2]

/-- Escaping distributes over concatenation. -/
lemma escapeAll_append (u v : List Nat) :
    escapeAll (u ++ v) = escapeAll u ++ escapeAll v := by
  induction u with
  | nil => simp [escapeAll]
  | cons a t ih =>
      show escChar a ++ escapeAll (t ++ v) = (escChar a ++ escapeAll t) ++ escapeAll v
      rw [ih, List.append_assoc]

/-- An escape output of at most two bytes had nothing to escape. -/
lemma escapeAll_short : ∀ x : List Nat, (escapeAll x).length ≤ 2 → escapeAll x = x := by
  intro x
  induction x with
  | nil => intro h; rfl
  | cons c rest ih =>
      intro h
      unfold escapeAll at h ⊢
      unfold escChar at h ⊢
      by_cases hc : islocalfscompatible c = true
      · rw [if_pos hc] at h ⊢
        simp only [List.cons_append, List.nil_append, List.length_cons] at h
        rw [ih (by omega)]
        rfl
      · rw [if_neg hc] at h
        simp at h

/-- A loop run over pattern-free indices leaves the string unchanged. -/
lemma unescLoop_id (s : List Nat) (hnp : ∀ j, isPat s j = false) :
    ∀ i, unescLoop s i = s := by
  intro i
  induction i with
  | zero =>
      show unescStep s 0 = s
      unfold unescStep
      rw [hnp 0]
      simp
  | succ k ih =>
      show unescLoop (unescStep s (k + 1)) k = s
      have hstep : unescStep s (k + 1) = s := by
        unfold unescStep
        rw [hnp (k + 1)]
        simp
      rw [hstep]
      exact ih

/-- Descending through pattern-free indices does not change the loop result. -/
lemma unescLoop_descend (s : List Nat) (lo : Nat) :
    ∀ hi, lo ≤ hi → (∀ j, lo < j → isPat s j = false) →
      unescLoop s hi = unescLoop s lo := by
  intro hi
  induction hi with
  | zero =>
      intro hlo _
      have : lo = 0 := Nat.le_zero.mp hlo
      rw [this]
  | succ k ih =>
      intro hlo hnp
      by_cases hk : lo = k + 1
      · rw [hk]
      · have hlo2 : lo ≤ k := by omega
        have hstep : unescStep s (k + 1) = s := by
          unfold unescStep
          rw [hnp (k + 1) (by omega)]
          simp
        show unescLoop (unescStep s (k + 1)) k = unescLoop s lo
        rw [hstep]
        exact ih hlo2 hnp

/-- Every escape piece is non-empty. -/
lemma escChar_ne_nil (c : Nat) : escChar c ≠ [] := by
  unfold escChar
  by_cases h : islocalfscompatible c <;> simp [h]

/-- An empty escape output comes only from the empty input. -/
lemma escapeAll_eq_nil {x : List Nat} (h : escapeAll x = []) : x = [] := by
  cases x with
  | nil => rfl
  | cons c rest =>
      exfalso
      unfold escapeAll at h
      rcases List.append_eq_nil.mp h with ⟨h1, -⟩
      exact escChar_ne_nil c h1

/-- Escaping a name with only compatible bytes changes nothing. -/
lemma escapeAll_of_compat {y : List Nat}
    (h : ∀ b ∈ y, islocalfscompatible b = true) : escapeAll y = y := by
  induction y with
  | nil => rfl
  | cons c rest ih =>
      have hc : islocalfscompatible c = true := h c (by simp)
      unfold escapeAll escChar
      rw [hc, if_pos rfl, ih fun b hb => h b (by simp [hb])]
      rfl

/-- The per-byte escape output is a dot only for a literal dot. -/
lemma escapeAll_eq_dot {x : List Nat} (h : escapeAll x = [46]) : x = [46] := by
  cases x with
  | nil => simp [escapeAll] at h
  | cons c rest =>
      unfold escapeAll escChar at h
      by_cases hc : islocalfscompatible c = true
      · rw [hc, if_pos rfl] at h
        simp only [List.cons_append, List.nil_append, List.cons.injEq] at h
        obtain ⟨h1, h2⟩ := h
        rw [h1, escapeAll_eq_nil h2]
      · rw [if_neg (by simp [hc])] at h
        simp at h

/-- The per-byte escape output is a double dot only for a literal double dot. -/
lemma escapeAll_eq_dotdot {x : List Nat} (h : escapeAll x = [46, 46]) : x = [46, 46] := by
  cases x with
  | nil => simp [escapeAll] at h
  | cons c rest =>
      unfold escapeAll at h
      unfold escChar at h
      by_cases hc : islocalfscompatible c = true
      · rw [hc, if_pos rfl] at h
        simp only [List.cons_append, List.nil_append, List.cons.injEq] at h
        obtain ⟨h1, h2⟩ := h
        rw [h1, escapeAll_eq_dot h2]
      · rw [if_neg (by simp [hc])] at h
        simp at h

/-- A take of the right length recovers exactly the list prefixes. -/
lemma take_eq_iff_isPrefixOf (u v : List Nat) : v.take u.length = u ↔ u <+: v := by
  constructor
  · intro h
    refine ⟨v.drop u.length, ?_⟩
    nth_rewrite 1 [← h]
    rw [List.take_append_drop]
  · rintro ⟨w, rfl⟩
    rw [List.take_left]

/-- Dropping a while-prefix never lengthens a list. -/
lemma length_dropWhile_le (p : Nat → Bool) (l : List Nat) :
    (l.dropWhile p).length ≤ l.length := by
  induction l with
  | nil => simp
  | cons a t ih =>
      by_cases h2 : p a = true <;> simp [List.dropWhile_cons, h2] <;> omega

/-- The first element surviving dropWhile fails the predicate. -/
lemma dropWhile_head_false (p : Nat → Bool) (l : List Nat) (b : Nat) (u : List Nat)
    (h : l.dropWhile p = b :: u) : p b = false := by
  induction l with
  | nil => simp at h
  | cons a t ih =>
      rw [List.dropWhile_cons] at h
      by_cases hp : p a = true
      · rw [if_pos hp] at h
        exact ih h
      · rw [if_neg hp] at h
        cases h
        simpa using hp

/-- Two head modifications compose. -/
lemma modifyHead_modifyHead (f g : List Nat → List Nat) (l : List (List Nat)) :
    (l.modifyHead g).modifyHead f = l.modifyHead fun x => f (g x) := by
  cases l <;> simp [List.modifyHead]

/-- An identity head modification is the identity. -/
lemma modifyHead_id (l : List (List Nat)) : (l.modifyHead fun x => x) = l := by
  cases l <;> simp [List.modifyHead]

/-- Splitting on NUL always yields at least one piece. -/
lemma splitOn_zero_ne_nil (l : List Nat) : List.splitOn 0 l ≠ [] := by
  induction l with
  | nil => simp [List.splitOn, List.splitOnP_nil]
  | cons a t ih =>
      unfold List.splitOn at *
      rw [List.splitOnP_cons]
      by_cases hp : (a == 0) = true
      · simp [hp]
      · rw [if_neg hp]
        cases h : List.splitOnP (fun x => x == 0) t with
        | nil => exact absurd h ih
        | cons y ys => simp [List.modifyHead]

/-- Splitting the empty byte string. -/
lemma splitOn_zero_nil : List.splitOn 0 ([] : List Nat) = [[]] := by
  simp [List.splitOn, List.splitOnP_nil]

/-- A leading NUL contributes an empty piece. -/
lemma splitOn_zero_cons_zero (t : List Nat) :
    List.splitOn 0 (0 :: t) = [] :: List.splitOn 0 t := by
  unfold List.splitOn
  rw [List.splitOnP_cons]
  simp

/-- A NUL-free run is prepended onto the first piece of the remainder. -/
lemma splitOn_zero_append_run (r u : List Nat) (hr : ∀ b ∈ r, (b == 0) = false) :
    List.splitOn 0 (r ++ u) = (List.splitOn 0 u).modifyHead fun x => r ++ x := by
  induction r with
  | nil => simp [modifyHead_id]
  | cons c r2 ih =>
      have hc : (c == 0) = false := hr c (by simp)
      have ih2 := ih fun b hb => hr b (by simp [hb])
      show List.splitOn 0 (c :: (r2 ++ u)) = _
      unfold List.splitOn at *
      rw [List.splitOnP_cons, if_neg (by simp [hc]), ih2, modifyHead_modifyHead]
      rfl

/-- Reassembly of a non-degenerate piece list. -/
lemma joinWithNul_cons (r : List Nat) (rs : List (List Nat)) (h : rs ≠ []) :
    joinWithNul (r :: rs) = r ++ 0 :: joinWithNul rs := by
  cases rs with
  | nil => exact absurd rfl h
  | cons a t => rfl

/-- The normalize scan agrees with splitting on NUL bytes, normalizing each
    non-empty piece, and reassembling — `none` exactly when some non-empty
    piece fails to normalize. -/
lemma normalizeLoop_splitOn (nfc : List Nat → Option (List Nat)) :
    ∀ (n : Nat) (s : List Nat), s.length ≤ n →
      normalizeLoop nfc s
        = if (List.splitOn 0 s).all (fun r => r.isEmpty || (nfc r).isSome) then
            some (joinWithNul ((List.splitOn 0 s).map
              fun r => if r.isEmpty then [] else (nfc r).getD []))
          else none := by
  intro n
  induction n with
  | zero =>
      intro s hs
      have hnil : s = [] := List.length_eq_zero.mp (Nat.le_zero.mp hs)
      subst hnil
      simp [normalizeLoop, splitOn_zero_nil, joinWithNul]
  | succ n ih =>
      intro s hs
      match s with
      | [] => simp [normalizeLoop, splitOn_zero_nil, joinWithNul]
      | 0 :: rest =>
          have hlen : rest.length ≤ n := by
            simpa [Nat.succ_le_succ_iff] using hs
          have hmapne : (List.splitOn 0 rest).map
              (fun r => if r.isEmpty then [] else (nfc r).getD []) ≠ [] := by
            simpa using splitOn_zero_ne_nil rest
          rw [show normalizeLoop nfc (0 :: rest)
                = (normalizeLoop nfc rest).map (fun r => 0 :: r) by
              rw [normalizeLoop]; simp]
          rw [ih rest hlen, splitOn_zero_cons_zero]
          by_cases hall : (List.splitOn 0 rest).all (fun r => r.isEmpty || (nfc r).isSome)
          · simp only [hall, if_pos, List.all_cons, List.isEmpty_nil, Bool.true_or,
              Bool.true_and, Option.map_some, List.map_cons]
            rw [joinWithNul_cons _ _ hmapne]
            simp
          · simp only [List.all_cons, List.isEmpty_nil, Bool.true_or, Bool.true_and]
            rw [if_neg hall, if_neg hall]
            rfl
      | c :: rest =>
          by_cases hc : c = 0
          · subst hc
            have hlen : rest.length ≤ n := by
              simpa [Nat.succ_le_succ_iff] using hs
            have hmapne : (List.splitOn 0 rest).map
                (fun r => if r.isEmpty then [] else (nfc r).getD []) ≠ [] := by
              simpa using splitOn_zero_ne_nil rest
            rw [show normalizeLoop nfc (0 :: rest)
                  = (normalizeLoop nfc rest).map (fun r => 0 :: r) by
                rw [normalizeLoop]; simp]
            rw [ih rest hlen, splitOn_zero_cons_zero]
            by_cases hall : (List.splitOn 0 rest).all (fun r => r.isEmpty || (nfc r).isSome)
            · simp only [hall, if_pos, List.all_cons, List.isEmpty_nil, Bool.true_or,
                Bool.true_and, Option.map_some, List.map_cons]
              rw [joinWithNul_cons _ _ hmapne]
              simp
            · simp only [List.all_cons, List.isEmpty_nil, Bool.true_or, Bool.true_and]
              rw [if_neg hall, if_neg hall]
              rfl
          · have hstep : normalizeLoop nfc (c :: rest)
                = match nfc (c :: rest.takeWhile fun b => b != 0) with
                  | none => none
                  | some out =>
                      (normalizeLoop nfc (rest.dropWhile fun b => b != 0)).map
                        fun r => out ++ r := by
              rw [normalizeLoop]
              simp [hc]
            have hrun : ∀ b ∈ (c :: rest.takeWhile fun b => b != 0), (b == 0) = false := by
              intro b hb
              rcases List.mem_cons.mp hb with hb | hb
              · subst hb; simpa using hc
              · have := List.mem_takeWhile_imp hb
                simpa using this
            have hsplit : List.splitOn 0 (c :: rest)
                = (List.splitOn 0 (rest.dropWhile fun b => b != 0)).modifyHead
                    fun x => (c :: rest.takeWhile fun b => b != 0) ++ x := by
              conv =>
                lhs
                rw [show c :: rest
                      = (c :: rest.takeWhile fun b => b != 0)
                          ++ (rest.dropWhile fun b => b != 0) by
                    simp [List.takeWhile_append_dropWhile]]
              exact splitOn_zero_append_run _ _ hrun
            cases ht2 : rest.dropWhile (fun b => b != 0) with
            | nil =>
                rw [ht2] at hsplit
                rw [hstep, ht2, hsplit, splitOn_zero_nil]
                cases hnfc : nfc (c :: rest.takeWhile fun b => b != 0) with
                | none => simp [List.modifyHead, hnfc]
                | some out => simp [List.modifyHead, hnfc, normalizeLoop, joinWithNul]
            | cons b u =>
                have hb0 : b = 0 := by
                  have := dropWhile_head_false _ _ _ _ ht2
                  simpa using this
                subst hb0
                rw [ht2] at hsplit
                rw [splitOn_zero_cons_zero] at hsplit
                have hlen2 : (0 :: u).length ≤ n := by
                  have h1 : (rest.dropWhile fun b => b != 0).length ≤ rest.length :=
                    length_dropWhile_le _ _
                  rw [ht2] at h1
                  have h2 : rest.length ≤ n := by
                    simpa [Nat.succ_le_succ_iff] using hs
                  omega
                have hmapne : (List.splitOn 0 u).map
                    (fun r => if r.isEmpty then [] else (nfc r).getD []) ≠ [] := by
                  simpa using splitOn_zero_ne_nil u
                rw [hstep, ht2, hsplit]
                cases hnfc : nfc (c :: rest.takeWhile fun b => b != 0) with
                | none => simp [List.modifyHead, hnfc]
                | some out =>
                    rw [ih (0 :: u) hlen2, splitOn_zero_cons_zero]
                    by_cases hall : (List.splitOn 0 u).all (fun r => r.isEmpty || (nfc r).isSome)
                    · simp only [hall, List.all_cons, List.isEmpty_nil, Bool.true_or,
                        Bool.true_and, if_pos, List.map_cons, List.modifyHead, hnfc,
                        Option.map_some]
                      rw [joinWithNul_cons _ _ hmapne]
                      simp only [List.isEmpty_cons, Bool.false_eq_true, if_neg,
                        List.append_nil, hnfc]
                      rw [joinWithNul_cons _ _ hmapne]
                      simp
                    · simp only [List.all_cons, List.isEmpty_nil, Bool.true_or, Bool.true_and,
                        List.modifyHead]
                      rw [if_neg hall, if_neg ?hkill]
                      · simp
                      case hkill =>
                        simp only [List.all_cons, Bool.and_eq_true, Bool.or_eq_true]
                        intro hcontra
                        exact hall hcontra.2

/-- Peeling one piece off an escape output whose head is not a percent byte:
    the first input byte was copied verbatim. -/
lemma escChar_append_cons_ne37 {c d : Nat} {w r : List Nat} (hne : d ≠ 37)
    (h : escChar c ++ w = d :: r) : c = d ∧ w = r := by
  unfold escChar at h
  by_cases hc : islocalfscompatible c = true
  · rw [if_pos hc] at h
    simpa using h
  · rw [if_neg hc] at h
    simp only [List.cons_append, List.cons.injEq] at h
    exact absurd h.1.symm hne

/-- Peeling one piece off an escape output whose head is the percent byte:
    either a verbatim percent, or an escape triple. -/
lemma escChar_append_cons_37 {c : Nat} {w r : List Nat}
    (h : escChar c ++ w = 37 :: r) :
    (islocalfscompatible c = true ∧ c = 37 ∧ w = r)
    ∨ (islocalfscompatible c = false
        ∧ r = hexdigit (c / 16) :: hexdigit (c % 16) :: w) := by
  unfold escChar at h
  by_cases hc : islocalfscompatible c = true
  · left
    rw [if_pos hc] at h
    simp only [List.cons_append, List.nil_append, List.cons.injEq] at h
    exact ⟨hc, h.1, h.2⟩
  · right
    rw [if_neg hc] at h
    simp only [List.cons_append, List.cons.injEq] at h
    exact ⟨by simpa using hc, h.2.symm⟩

/-- No incompatible byte escapes to the digits of "%2e" (0x2e is the dot,
    which is compatible). -/
lemma escape_digits_46 {c : Nat} (hc : islocalfscompatible c = false)
    (h1 : hexdigit (c / 16) = 50) (h2 : hexdigit (c % 16) = 101) : False := by
  have hd := hexdigit_eq_50 h1
  have hm := hexdigit_eq_101 h2
  have hc46 : c = 46 := by omega
  rw [hc46] at hc
  exact absurd hc (by decide)

/-- The per-byte escape output is "%2e" only for the literal input "%2e". -/
lemma escapeAll_eq_p2e : ∀ x : List Nat, escapeAll x = [37, 50, 101] → x = [37, 50, 101] := by
  intro x h
  cases x with
  | nil => simp [escapeAll] at h
  | cons c rest =>
      rw [show escapeAll (c :: rest) = escChar c ++ escapeAll rest from rfl] at h
      rcases escChar_append_cons_37 h with ⟨-, hceq, hw⟩ | ⟨hc, hr⟩
      · subst hceq
        cases rest with
        | nil => simp [escapeAll] at hw
        | cons c2 r2 =>
            rw [show escapeAll (c2 :: r2) = escChar c2 ++ escapeAll r2 from rfl] at hw
            obtain ⟨hc2, hw2⟩ := escChar_append_cons_ne37 (by omega) hw
            subst hc2
            cases r2 with
            | nil => simp [escapeAll] at hw2
            | cons c3 r3 =>
                rw [show escapeAll (c3 :: r3) = escChar c3 ++ escapeAll r3 from rfl] at hw2
                obtain ⟨hc3, hw3⟩ := escChar_append_cons_ne37 (by omega) hw2
                subst hc3
                rw [escapeAll_eq_nil hw3]
      · simp only [List.cons.injEq] at hr
        exact (escape_digits_46 hc hr.1.symm hr.2.1.symm).elim

/-- The per-byte escape output is "%2e%2e" only for the literal input
    "%2e%2e". -/
lemma escapeAll_eq_p2e2 : ∀ x : List Nat,
    escapeAll x = [37, 50, 101, 37, 50, 101] → x = [37, 50, 101, 37, 50, 101] := by
  intro x h
  cases x with
  | nil => simp [escapeAll] at h
  | cons c rest =>
      rw [show escapeAll (c :: rest) = escChar c ++ escapeAll rest from rfl] at h
      rcases escChar_append_cons_37 h with ⟨-, hceq, hw⟩ | ⟨hc, hr⟩
      · subst hceq
        cases rest with
        | nil => simp [escapeAll] at hw
        | cons c2 r2 =>
            rw [show escapeAll (c2 :: r2) = escChar c2 ++ escapeAll r2 from rfl] at hw
            obtain ⟨hc2, hw2⟩ := escChar_append_cons_ne37 (by omega) hw
            subst hc2
            cases r2 with
            | nil => simp [escapeAll] at hw2
            | cons c3 r3 =>
                rw [show escapeAll (c3 :: r3) = escChar c3 ++ escapeAll r3 from rfl] at hw2
                obtain ⟨hc3, hw3⟩ := escChar_append_cons_ne37 (by omega) hw2
                subst hc3
                rw [escapeAll_eq_p2e r3 hw3]
      · simp only [List.cons.injEq] at hr
        exact (escape_digits_46 hc hr.1.symm hr.2.1.symm).elim

/-- Core of the round trip: running the unescape loop over an escaped prefix
    followed by an already-decoded suffix recovers the original bytes.  `x` is
    the still-encoded part, `t` the already-decoded tail; the byte bound keeps
    the escape digits well-formed And the pattern-freedom of the original
    string rules out stray decodable triples. -/
lemma unescLoop_escapeAll (x : List Nat) :
    ∀ (t : List Nat) (i : Nat),
      (∀ b ∈ x ++ t, b < 256) →
      (∀ j, isPat (x ++ t) j = false) →
      (escapeAll x).length ≤ i + 3 →
      unescLoop (escapeAll x ++ t) i = x ++ t := by
  induction x using List.reverseRecOn with
  | nil =>
      intro t i hb hnp hlen
      have ht : ∀ j, isPat t j = false := by simpa using hnp
      simpa [escapeAll] using unescLoop_id t ht i
  | append_singleton y c ihy =>
      intro t i hb hnp hlen
      have hxt : (y ++ [c]) ++ t = y ++ (c :: t) := by simp
      by_cases hcompat : islocalfscompatible c = true
      · -- c is kept verbatim: fold it into the decoded tail and recurse.
        have hpiece : escapeAll [c] = [c] := by
          show escChar c ++ escapeAll [] = [c]
          unfold escChar
          rw [if_pos hcompat]
          rfl
        have hst : escapeAll (y ++ [c]) ++ t = escapeAll y ++ (c :: t) := by
          rw [escapeAll_append, hpiece, List.append_assoc]
          rfl
        rw [hst, hxt]
        apply ihy (c :: t) i
        · intro b hbm
          apply hb
          rw [hxt]
          exact hbm
        · intro j
          rw [← hxt]
          exact hnp j
        · have hlen2 : (escapeAll (y ++ [c])).length = (escapeAll y).length + 1 := by
            rw [escapeAll_append, hpiece]
            simp
          omega
      · -- c was escaped to [37, d1, d2]: decode it at index m, then recurse.
        have hcF : islocalfscompatible c = false := by simpa using hcompat
        have hcb : c < 256 := hb c (by simp)
        have hdiv : c / 16 < 16 := by omega
        have hmod : c % 16 < 16 := by omega
        have hpiece : escapeAll [c] = [37, hexdigit (c / 16), hexdigit (c % 16)] := by
          show escChar c ++ escapeAll [] = _
          unfold escChar
          rw [if_neg (by simp [hcF])]
          rfl
        have henc : escapeAll (y ++ [c])
            = escapeAll y ++ [37, hexdigit (c / 16), hexdigit (c % 16)] := by
          rw [escapeAll_append, hpiece]
        have hs : escapeAll (y ++ [c]) ++ t
            = escapeAll y ++ ([37, hexdigit (c / 16), hexdigit (c % 16)] ++ t) := by
          rw [henc, List.append_assoc]
        have hg0 : (escapeAll y ++ ([37, hexdigit (c / 16), hexdigit (c % 16)] ++ t)).getD
            ((escapeAll y).length) 0 = 37 := by
          have h := getD_append_len (escapeAll y)
            ([37, hexdigit (c / 16), hexdigit (c % 16)] ++ t) 0
          simpa using h
        have hg1 : (escapeAll y ++ ([37, hexdigit (c / 16), hexdigit (c % 16)] ++ t)).getD
            ((escapeAll y).length + 1) 0 = hexdigit (c / 16) := by
          have h := getD_append_len (escapeAll y)
            ([37, hexdigit (c / 16), hexdigit (c % 16)] ++ t) 1
          simpa using h
        have hg2 : (escapeAll y ++ ([37, hexdigit (c / 16), hexdigit (c % 16)] ++ t)).getD
            ((escapeAll y).length + 2) 0 = hexdigit (c % 16) := by
          have h := getD_append_len (escapeAll y)
            ([37, hexdigit (c / 16), hexdigit (c % 16)] ++ t) 2
          simpa using h
        have hdm : c / 16 * 16 + c % 16 = c := by omega
        have hdec : decodeAt (escapeAll y ++ ([37, hexdigit (c / 16), hexdigit (c % 16)] ++ t))
            ((escapeAll y).length) = c := by
          unfold decodeAt
          rw [hg1, hg2, hexval_hexdigit _ hdiv, hexval_hexdigit _ hmod]
          omega
        have hpat : isPat (escapeAll y ++ ([37, hexdigit (c / 16), hexdigit (c % 16)] ++ t))
            ((escapeAll y).length) = true := by
          unfold isPat
          rw [hg0, hg1, hg2, hdec, hcF]
          simp [hexdigit_islchex _ hdiv, hexdigit_islchex _ hmod]
        have hfulllen : (escapeAll y ++ [37, hexdigit (c / 16), hexdigit (c % 16)]).length
            = (escapeAll y).length + 3 := by
          simp
        have hstep : unescStep (escapeAll y ++ ([37, hexdigit (c / 16), hexdigit (c % 16)] ++ t))
            ((escapeAll y).length) = escapeAll y ++ (c :: t) := by
          unfold unescStep
          rw [hpat, hdec]
          simp only [if_true]
          have htake : (escapeAll y ++ ([37, hexdigit (c / 16), hexdigit (c % 16)] ++ t)).take
              ((escapeAll y).length) = escapeAll y := List.take_left ..
          have hdrop : (escapeAll y ++ ([37, hexdigit (c / 16), hexdigit (c % 16)] ++ t)).drop
              ((escapeAll y).length + 3) = t := by
            rw [← List.append_assoc, ← hfulllen]
            exact List.drop_left ..
          rw [htake, hdrop]
        have habove : ∀ j, (escapeAll y).length < j →
            isPat (escapeAll y ++ ([37, hexdigit (c / 16), hexdigit (c % 16)] ++ t)) j
              = false := by
          intro j hj
          rcases Nat.lt_or_ge j ((escapeAll y).length + 3) with hj2 | hj2
          · have hj3 : j = (escapeAll y).length + 1 ∨ j = (escapeAll y).length + 2 := by
              omega
            rcases hj3 with hje | hje <;> subst hje
            · unfold isPat
              rw [hg1]
              have hnot : (hexdigit (c / 16) == 37) = false := by
                have h := hexdigit_ne_37 _ hdiv
                simpa using h
              rw [hnot]
              simp
            · unfold isPat
              rw [hg2]
              have hnot : (hexdigit (c % 16) == 37) = false := by
                have h := hexdigit_ne_37 _ hmod
                simpa using h
              rw [hnot]
              simp
          · obtain ⟨k, hk⟩ : ∃ k, j = ((escapeAll y).length + 3) + k :=
              ⟨j - ((escapeAll y).length + 3), by omega⟩
            subst hk
            have hshift : isPat (escapeAll y ++ ([37, hexdigit (c / 16), hexdigit (c % 16)] ++ t))
                (((escapeAll y).length + 3) + k) = isPat t k := by
              have h := isPat_append_len (escapeAll y ++ [37, hexdigit (c / 16), hexdigit (c % 16)]) t k
              rw [hfulllen] at h
              rw [← List.append_assoc]
              exact h
            rw [hshift]
            have h2 := isPat_append_len (y ++ [c]) t k
            rw [← h2]
            exact hnp _
        have him : (escapeAll y).length ≤ i := by
          have h3 : (escapeAll (y ++ [c])).length = (escapeAll y).length + 3 := by
            rw [henc]
            simp
          omega
        rw [hs, hxt, unescLoop_descend _ ((escapeAll y).length) i him habove]
        cases hmz : (escapeAll y).length with
        | zero =>
            have hy : y = [] := escapeAll_eq_nil (List.length_eq_zero.mp hmz)
            rw [hmz] at hstep
            show unescStep (escapeAll y ++ ([37, hexdigit (c / 16), hexdigit (c % 16)] ++ t)) 0
              = y ++ (c :: t)
            rw [hstep, hy]
            simp [escapeAll]
        | succ k =>
            rw [hmz] at hstep
            show unescLoop
              (unescStep (escapeAll y ++ ([37, hexdigit (c / 16), hexdigit (c % 16)] ++ t)) (k + 1)) k
              = y ++ (c :: t)
            rw [hstep]
            apply ihy (c :: t) k
            · intro b hbm
              apply hb
              rw [hxt]
              exact hbm
            · intro j
              rw [← hxt]
              exact hnp j
            · omega

/-- Beyond the end of the string the loop guard reads the NUL terminator and
    never fires. -/
lemma isPat_ge_length {s : List Nat} {j : Nat} (h : s.length ≤ j) : isPat s j = false := by
  unfold isPat
  rw [List.getD_eq_default s 0 h]
  simp

/-- A string without decodable triples has none at any index, in or out of
    range. -/
lemma hasPattern_false {s : List Nat} (h : hasPattern s = false) :
    ∀ j, isPat s j = false := by
  intro j
  by_cases hj : j < s.length
  · unfold hasPattern at h
    rw [List.any_eq_false] at h
    have := h j (List.mem_range.mpr hj)
    simpa using this
  · exact isPat_ge_length (by omega)

/-- Whatever the input, `escapefsincompatible` never outputs the reserved
    directory names. -/
lemma escape_ne_dots (x : List Nat) :
    escapefsincompatible x ≠ [46] ∧ escapefsincompatible x ≠ [46, 46] := by
  unfold escapefsincompatible
  by_cases h2 : x = [46, 46]
  · simp [h2]
  · by_cases h1 : x = [46]
    · simp [h1, h2]
    · rw [if_neg h2, if_neg h1]
      constructor
      · intro h
        exact h1 (escapeAll_eq_dot h)
      · intro h
        exact h2 (escapeAll_eq_dotdot h)

/-! ## Claims -/

/-- C1, counterexample to the claim as stated, with path2local and local2path
    both the identity (mutually inverse): the presentation name "%3a" (bytes
    37, 51, 97) contains only compatible bytes, so escaping leaves it alone,
    but unescaping decodes the triple to ":" — and the literal name "%2e"
    collides with the reserved escape of "." and comes back as ".". -/
theorem C1_cex :
    local2name (fun s => s) (name2local (fun s => s) [37, 51, 97]) ≠ [37, 51, 97]
      ∧ local2name (fun s => s) (name2local (fun s => s) [37, 50, 101]) ≠ [37, 50, 101] := by
  decide

/-- C1 (amended): assuming path2local and local2path are mutually inverse, the
    round trip local2name (name2local x) = x holds for every byte string x
    (including "." and "..") that does not already contain a well-formed
    lowercase-hex escape %xx decoding to a filesystem-incompatible byte and is
    not itself one of the reserved escape outputs "%2e" or "%2e%2e". -/
theorem C1_roundtrip :
    ∀ (p2l l2p : List Nat → List Nat), (∀ s, l2p (p2l s) = s) →
      ∀ z : List Nat, z.all (fun b => decide (b < 256)) = true →
        hasPattern z = false →
        z ≠ [37, 50, 101] → z ≠ [37, 50, 101, 37, 50, 101] →
        local2name l2p (name2local p2l z) = z := by
  intro p2l l2p hinv z hball hpat h1 h2
  have hb : ∀ b ∈ z, b < 256 := by
    intro b hbm
    have := List.all_eq_true.mp hball b hbm
    simpa using this
  have hnp : ∀ j, isPat z j = false := hasPattern_false hpat
  unfold name2local local2name
  rw [hinv]
  by_cases hdd : z = [46, 46]
  · subst hdd
    decide
  · by_cases hd : z = [46]
    · subst hd
      decide
    · have hesc : escapefsincompatible z = escapeAll z := by
        unfold escapefsincompatible
        rw [if_neg hdd, if_neg hd]
      rw [hesc]
      have hne1 : escapeAll z ≠ [37, 50, 101] := fun hcon => h1 (escapeAll_eq_p2e z hcon)
      have hne2 : escapeAll z ≠ [37, 50, 101, 37, 50, 101] := fun hcon =>
        h2 (escapeAll_eq_p2e2 z hcon)
      unfold unescapefsincompatible
      rw [if_neg hne2, if_neg hne1]
      by_cases hlen : 3 ≤ (escapeAll z).length
      · rw [if_pos hlen]
        have hb2 : ∀ b ∈ z ++ [], b < 256 := by simpa using hb
        have hnp2 : ∀ j, isPat (z ++ []) j = false := by simpa using hnp
        have hml := unescLoop_escapeAll z [] ((escapeAll z).length - 3) hb2 hnp2 (by omega)
        simpa using hml
      · rw [if_neg hlen]
        exact escapeAll_short z (by omega)

/-- C1 witness: the name "a:b" (bytes 97, 58, 98), whose colon is escaped and
    decoded back, with identity encoding conversions. -/
theorem C1_roundtrip_witness :
    local2name (fun s => s) (name2local (fun s => s) [97, 58, 98]) = [97, 58, 98] :=
  C1_roundtrip (fun s => s) (fun s => s) (fun s => rfl) [97, 58, 98]
    (by decide) (by decide) (by decide) (by decide)

/-- C2, counterexample to the claim as stated: after an immediate notification
    (tail timestamp 0), a second non-immediate notify for the same (node, path)
    with debounce tick 5 leaves the tail timestamp at 0 — the code refreshes
    only a non-zero timestamp — whereas the claim says it is refreshed to the
    current tick (5). -/
theorem C2_cex :
    getq (notify (notify emptyNQ none 7 NotifyQueue.DIREVENTS none [] true)
            none 5 NotifyQueue.DIREVENTS none [] false) NotifyQueue.DIREVENTS
        ≠ [⟨5, none, []⟩]
      ∧ getq (notify (notify emptyNQ none 7 NotifyQueue.DIREVENTS none [] true)
            none 5 NotifyQueue.DIREVENTS none [] false) NotifyQueue.DIREVENTS
        = [⟨0, none, []⟩] := by
  decide

/-- C2 (amended): if the most recent entry of queue q already refers to the
    same (node, path), no new entry is enqueued; instead, when the tail's
    timestamp is non-zero it is refreshed to 0 for an immediate call and to the
    current debounce tick otherwise, and when it is already 0 (process
    immediately) it is left at 0.  In particular two successive non-immediate
    calls with a non-zero first tick leave exactly one entry carrying the
    second call's tick, and an immediate call after a prior non-immediate entry
    leaves exactly one entry with timestamp 0. -/
theorem C2_dedup_refresh :
    (∀ (nq : NotifyQueues) (sync : Option SyncEnv) (ds : Nat) (q : NotifyQueue)
        (l : Option Nat) (path : List Nat) (immediate : Bool) (e : Notification),
        (getq nq q).getLast? = some e → e.localnode = l → e.path = path →
        (e.timestamp ≠ 0 →
          notify nq sync ds q l path immediate
            = setq nq q ((getq nq q).dropLast
                ++ [{ e with timestamp := if immediate then 0 else ds }]))
        ∧ (e.timestamp = 0 →
          notify nq sync ds q l path immediate
            = setq nq q ((getq nq q).dropLast ++ [e])))
    ∧ (∀ (nq : NotifyQueues) (q : NotifyQueue) (l : Option Nat) (path : List Nat)
        (ds1 ds2 : Nat), getq nq q = [] → ds1 ≠ 0 →
        getq (notify (notify nq none ds1 q l path false) none ds2 q l path false) q
          = [⟨ds2, l, path⟩])
    ∧ (∀ (nq : NotifyQueues) (q : NotifyQueue) (l : Option Nat) (path : List Nat)
        (ds1 ds2 : Nat), getq nq q = [] →
        getq (notify (notify nq none ds1 q l path true) none ds2 q l path true) q
          = [⟨0, l, path⟩]) := by
  refine ⟨?_, ?_, ?_⟩
  · intro nq sync ds q l path immediate e he hl hp
    rw [notify_dedup nq sync ds q l path immediate e he hl hp]
    obtain ⟨ts, ln, pth⟩ := e
    constructor
    · intro ht
      simp only [ne_eq] at ht
      simp [refreshTail, he, ht]
    · intro ht
      simp only at ht
      subst ht
      simp [refreshTail, he]
  · intro nq q l path ds1 ds2 h0 hds
    have h1 : notify nq none ds1 q l path false = setq nq q [⟨ds1, l, path⟩] := by
      unfold notify
      simp [dedupHit, h0]
    rw [h1]
    have he : (getq (setq nq q [⟨ds1, l, path⟩]) q).getLast? = some ⟨ds1, l, path⟩ := by
      simp [getq_setq]
    rw [notify_dedup _ none ds2 q l path false _ he rfl rfl]
    simp [getq_setq, refreshTail, hds]
  · intro nq q l path ds1 ds2 h0
    have h1 : notify nq none ds1 q l path true = setq nq q [⟨0, l, path⟩] := by
      unfold notify
      simp [dedupHit, h0]
    rw [h1]
    have he : (getq (setq nq q [⟨0, l, path⟩]) q).getLast? = some ⟨0, l, path⟩ := by
      simp [getq_setq]
    rw [notify_dedup _ none ds2 q l path true _ he rfl rfl]
    simp [getq_setq, refreshTail]

/-- C2 witness: concrete instance of the second conjunct — two successive
    non-immediate notifications for the same (node, path) leave exactly one
    entry carrying the second call's tick. -/
theorem C2_dedup_refresh_witness :
    getq (notify (notify emptyNQ none 7 NotifyQueue.DIREVENTS none [] false)
            none 5 NotifyQueue.DIREVENTS none [] false) NotifyQueue.DIREVENTS
      = [⟨5, none, []⟩] :=
  C2_dedup_refresh.2.1 emptyNQ NotifyQueue.DIREVENTS none [] 7 5 rfl (by decide)

/-- C3, counterexample to the claim as stated: a FOLDERNODE whose cached mtime
    (50) differs from the on-disk mtime (100) while everything else matches.
    The claim's condition list (mtime must match for every node type) is false,
    so the claim requires the event to be enqueued; the code compares mtime and
    size only for FILENODEs and drops the event (the queues are unchanged). -/
theorem C3_cex :
    (let env : SyncEnv :=
      { initialScan := false,
        stat := { success := true, retry := false, fsidvalid := true, fsid := 1,
                  ftype := nodetype.FOLDERNODE, mtime := 100, size := 0 },
        localnodebypath := some
          { id := 0,
            node := some { localnodeBack := some 0, attrN := some [110], fingerprint := 0 },
            ntype := nodetype.FOLDERNODE, fingerprint := 0, name := [110],
            fsid := 1, mtime := 50, size := 0 } }
     notify emptyNQ (some env) 3 NotifyQueue.DIREVENTS (some 0) [] false = emptyNQ
       ∧ suppressClaimC3 env = false) := by
  decide

/-- C3 (amended): a non-immediate DIREVENTS notification issued after the
    initial subtree scan (and not merged by dedup) is dropped exactly when
    either (a) the local node is absent and the stat fails non-retryably, or
    (b) the node exists, the stat succeeds, the tracked back-reference still
    points to this local node, the tracked name matches, the filesystem id is
    valid and matches, the entry types match, and — for file-type nodes — the
    fingerprint, mtime and size are unchanged; otherwise it is enqueued. -/
theorem C3_selfsuppression :
    ∀ (nq : NotifyQueues) (env : SyncEnv) (ds : Nat) (l : Option Nat) (path : List Nat),
      env.initialScan = false →
      dedupHit (getq nq NotifyQueue.DIREVENTS) NotifyQueue.DIREVENTS l path = false →
      ((notify nq (some env) ds NotifyQueue.DIREVENTS l path false = nq
          ↔ suppressSpecC3 env)
        ∧ (¬suppressSpecC3 env →
            notify nq (some env) ds NotifyQueue.DIREVENTS l path false
              = setq nq NotifyQueue.DIREVENTS
                  (getq nq NotifyQueue.DIREVENTS ++ [⟨ds, l, path⟩]))) := by
  intro nq env ds l path hscan hdedup
  have hnot : notify nq (some env) ds NotifyQueue.DIREVENTS l path false
      = if selfSuppressed env then nq
        else setq nq NotifyQueue.DIREVENTS (getq nq NotifyQueue.DIREVENTS ++ [⟨ds, l, path⟩]) := by
    unfold notify
    simp [hdedup, hscan]
  constructor
  · rw [hnot, suppressSpecC3_iff]
    by_cases hs : selfSuppressed env = true
    · simp [hs]
    · simp only [Bool.not_eq_true] at hs
      simp [hs]
      exact setq_append_ne nq NotifyQueue.DIREVENTS ⟨ds, l, path⟩
  · intro hns
    rw [suppressSpecC3_iff] at hns
    rw [hnot, if_neg (by simpa using hns)]

/-- C3 witness: a node absent on disk with a non-retryable stat failure — the
    consistent-deleted case (a) — is dropped. -/
theorem C3_selfsuppression_witness :
    notify emptyNQ
        (some { initialScan := false,
                stat := { success := false, retry := false, fsidvalid := false,
                          fsid := 0, ftype := nodetype.TYPE_UNKNOWN, mtime := 0, size := 0 },
                localnodebypath := none })
        5 NotifyQueue.DIREVENTS none [] false = emptyNQ :=
  (C3_selfsuppression emptyNQ _ 5 none [] rfl (by decide)).1.mpr
    (Or.inl ⟨rfl, rfl, rfl⟩)

/-- C4: after fopen captured mtime and size, an openf whose re-stat succeeds
    with a different mtime or size returns false, sets retry to false, and
    updates the cached values; with both unchanged it performs the real open
    (returning sysopen's result). -/
theorem C4_openf_staleness :
    ∀ (fa : FAState) (name : List Nat) (mt sz cm cs : Int) (sysopenRes : Bool),
      (¬(cm = mt ∧ cs = sz) →
        openf (fopen fa name (some (mt, sz))).2 (some (cm, cs)) sysopenRes
          = (false, { (fopen fa name (some (mt, sz))).2 with
                        mtime := cm, size := cs, retry := false }))
      ∧ (cm = mt ∧ cs = sz →
        openf (fopen fa name (some (mt, sz))).2 (some (cm, cs)) sysopenRes
          = (sysopenRes, (fopen fa name (some (mt, sz))).2)) := by
  intro fa name mt sz cm cs r
  constructor
  · intro h
    have hh : cm ≠ mt ∨ cs ≠ sz := by tauto
    simp [fopen, openf, hh]
  · rintro ⟨h1, h2⟩
    subst h1; subst h2
    simp [fopen, openf]

/-- C4 witness: with fopen capturing (mtime, size) = (1, 2) and the re-stat
    observing (3, 2), openf fails permanently and updates the cache. -/
theorem C4_openf_staleness_witness :
    openf (fopen initFA [102] (some (1, 2))).2 (some (3, 2)) true
      = (false, { (fopen initFA [102] (some (1, 2))).2 with
                    mtime := 3, size := 2, retry := false }) :=
  (C4_openf_staleness initFA [102] 1 2 3 2 true).1 (by decide)

/-- C5, counterexample to the claim as stated: from a fresh FileAccess, a first
    asyncopenf whose sysopen fails leaves the reader count at 1 with the handle
    closed; the next asyncopenf then opens the handle although the count
    transitions from 1 to 2, not from zero. -/
theorem C5_cex :
    (let fa1 := (fopen initFA [102] (some (5, 9))).2
     let fa2 := (asyncopenf fa1 (some (5, 9)) false).2
     fa2.numAsyncReads = 1 ∧ fa2.isAsyncOpened = false
       ∧ (asyncopenf fa2 (some (5, 9)) true).2.isAsyncOpened = true
       ∧ (asyncopenf fa2 (some (5, 9)) true).2.numAsyncReads = 2) := by
  decide

/-- C5 (amended): asyncopenf always counts one more concurrent reader and opens
    the real handle exactly when it was not already open, the access is in
    non-blocking mode, the re-stat succeeds with unchanged mtime/size, and the
    real open succeeds (when every attempt succeeds this is the first
    concurrent reader); asyncclosef always counts one reader less and closes
    the handle exactly when it was open and the decremented count is zero;
    destroying a READ AsyncIOContext decrements the issuing access's count by
    exactly one. -/
theorem C5_async_refcount :
    (∀ (fa : FAState) (statRes : Option (Int × Int)) (r : Bool),
        (asyncopenf fa statRes r).2.numAsyncReads = fa.numAsyncReads + 1
        ∧ (((asyncopenf fa statRes r).2.isAsyncOpened = true ∧ fa.isAsyncOpened = false)
            ↔ (fa.isAsyncOpened = false ∧ fa.nonblocking_localname ≠ []
                ∧ statRes = some (fa.mtime, fa.size) ∧ r = true)))
    ∧ (∀ fa : FAState,
        (asyncclosef fa).numAsyncReads = fa.numAsyncReads - 1
        ∧ ((fa.isAsyncOpened = true ∧ (asyncclosef fa).isAsyncOpened = false)
            ↔ (fa.isAsyncOpened = true ∧ fa.numAsyncReads - 1 = 0)))
    ∧ (∀ (ctx : AsyncIOContext) (fa : FAState), ctx.op = asyncop.READ →
        (destroyAsyncIOContext ctx fa).numAsyncReads = fa.numAsyncReads - 1) := by
  refine ⟨?_, ?_, ?_⟩
  · intro fa statRes r
    constructor
    · unfold asyncopenf
      cases statRes with
      | none => by_cases h1 : fa.nonblocking_localname.isEmpty <;>
          by_cases h2 : fa.isAsyncOpened <;> simp [h1, h2]
      | some p =>
          obtain ⟨cm, cs⟩ := p
          by_cases h1 : fa.nonblocking_localname.isEmpty <;>
            by_cases h2 : fa.isAsyncOpened <;>
              by_cases h3 : cm ≠ fa.mtime ∨ cs ≠ fa.size <;>
                by_cases h4 : r <;> simp [h1, h2, h3, h4]
    · unfold asyncopenf
      cases statRes with
      | none =>
          by_cases h1 : fa.nonblocking_localname.isEmpty <;>
            by_cases h2 : fa.isAsyncOpened = true <;>
              simp_all [List.isEmpty_iff]
      | some p =>
          obtain ⟨cm, cs⟩ := p
          by_cases h1 : fa.nonblocking_localname.isEmpty <;>
            by_cases h2 : fa.isAsyncOpened = true <;>
              by_cases h3 : cm = fa.mtime <;>
                by_cases h4 : cs = fa.size <;>
                  cases r <;>
                    simp_all [List.isEmpty_iff]
  · intro fa
    constructor
    · unfold asyncclosef
      by_cases h1 : fa.isAsyncOpened <;>
        by_cases h2 : fa.numAsyncReads - 1 = 0 <;> simp [h1, h2]
    · unfold asyncclosef
      by_cases h1 : fa.isAsyncOpened <;>
        by_cases h2 : fa.numAsyncReads - 1 = 0 <;> simp [h1, h2]
  · intro ctx fa hop
    simp [destroyAsyncIOContext, hop, asyncclosef]
    by_cases h1 : fa.isAsyncOpened <;>
      by_cases h2 : fa.numAsyncReads - 1 = 0 <;> simp [h1, h2]

/-- C5 witness: destroying a READ context decrements the reader count. -/
theorem C5_async_refcount_witness :
    (destroyAsyncIOContext { newasynccontext with op := asyncop.READ } initFA).numAsyncReads
      = initFA.numAsyncReads - 1 :=
  C5_async_refcount.2.2 { newasynccontext with op := asyncop.READ } initFA rfl

/-- C6, counterexample to the claim as stated: the single-argument asyncfopen
    (filesystem.cpp line 331) sets the context's failure flag from the stat
    result; with a successful stat the returned context is completed but not
    failed, contradicting the claim that every returned context has its
    failure flag true. -/
theorem C6_cex :
    (asyncfopen1 initFA [102] (some (1, 2))).1.finished = true
      ∧ (asyncfopen1 initFA [102] (some (1, 2))).1.failed = false := by
  decide

/-- C6 (amended): in the base implementation every context returned by
    asyncfread, asyncfwrite, or the access-flag asyncfopen overload is already
    completed synchronously with failure — completion flag true, failure flag
    true — and its stored callback has been invoked exactly once, at the moment
    the completion flag was true (cbLog = [true] from an initially empty log
    and an initially false flag); the single-argument asyncfopen likewise
    completes synchronously with the callback invoked exactly once, but its
    failure flag equals the failure of the synchronous stat. -/
theorem C6_base_async_completion :
    (∀ (fa : FAState) (len pad : Nat) (pos : Int) (statRes : Option (Int × Int)) (r : Bool),
        (asyncfread fa len pad pos statRes r).1.finished = true
          ∧ (asyncfread fa len pad pos statRes r).1.failed = true
          ∧ (asyncfread fa len pad pos statRes r).1.cbLog = [true])
    ∧ (∀ (len : Nat) (pos : Int),
        (asyncfwrite len pos).finished = true
          ∧ (asyncfwrite len pos).failed = true
          ∧ (asyncfwrite len pos).cbLog = [true])
    ∧ (∀ (f : List Nat) (rd wr : Bool) (pos : Int),
        (asyncfopen2 f rd wr pos).finished = true
          ∧ (asyncfopen2 f rd wr pos).failed = true
          ∧ (asyncfopen2 f rd wr pos).cbLog = [true])
    ∧ (∀ (fa : FAState) (f : List Nat) (statRes : Option (Int × Int)),
        (asyncfopen1 fa f statRes).1.finished = true
          ∧ (asyncfopen1 fa f statRes).1.cbLog = [true]
          ∧ (asyncfopen1 fa f statRes).1.failed = statRes.isNone) := by
  refine ⟨?_, ?_, ?_, ?_⟩
  · intro fa len pad pos statRes r
    unfold asyncfread
    cases hop : asyncopenf fa statRes r with
    | mk ok fa1 =>
        cases ok <;> simp [asyncsysread, invokeCallback, newasynccontext]
  · intro len pos
    simp [asyncfwrite, asyncsyswrite, invokeCallback, newasynccontext]
  · intro f rd wr pos
    simp [asyncfopen2, asyncsysopen, invokeCallback, newasynccontext]
  · intro fa f statRes
    cases statRes with
    | none => simp [asyncfopen1, invokeCallback, newasynccontext]
    | some p => obtain ⟨mt, sz⟩ := p; simp [asyncfopen1, invokeCallback, newasynccontext]

/-- C7: isContainingPathOf(parent, child) is true iff child's bytes begin with
    parent's bytes and either the lengths are equal or a complete platform
    separator sequence immediately follows the parent's length in child; in
    particular "/a/b" contains "/a/b/c" and does not contain "/a/bc" (separator
    "/" = byte 47). -/
theorem C7_isContainingPathOf :
    (∀ (parent child : LocalPath) (sep : List Nat),
        parent.isContainingPathOf child sep = true ↔
          (parent.localpath <+: child.localpath
            ∧ (child.localpath.length = parent.localpath.length
                ∨ sep <+: child.localpath.drop parent.localpath.length)))
    ∧ LocalPath.isContainingPathOf ⟨[47, 97, 47, 98]⟩ ⟨[47, 97, 47, 98, 47, 99]⟩ [47] = true
    ∧ LocalPath.isContainingPathOf ⟨[47, 97, 47, 98]⟩ ⟨[47, 97, 47, 98, 99]⟩ [47] = false := by
  refine ⟨?_, by decide, by decide⟩
  intro parent child sep
  unfold LocalPath.isContainingPathOf
  simp only [Bool.and_eq_true, Bool.or_eq_true, decide_eq_true_eq, beq_iff_eq]
  constructor
  · rintro ⟨⟨hle, htake⟩, hor⟩
    refine ⟨(take_eq_iff_isPrefixOf _ _).mp htake, ?_⟩
    rcases hor with h | h
    · exact Or.inl h
    · exact Or.inr ((take_eq_iff_isPrefixOf _ _).mp h)
  · rintro ⟨hpre, hor⟩
    refine ⟨⟨hpre.length_le, (take_eq_iff_isPrefixOf _ _).mpr hpre⟩, ?_⟩
    rcases hor with h | h
    · exact Or.inl h
    · exact Or.inr ((take_eq_iff_isPrefixOf _ _).mpr h)

/-- C8: normalize splits its input on embedded NUL bytes, applies NFC (an
    uninterpreted pure bytes-to-bytes-or-failure function) independently to
    each non-null run, and reassembles the normalized runs with every null
    separator preserved in place; if NFC fails on any run the output is the
    empty string regardless of runs already processed. -/
theorem C8_normalize :
    ∀ (nfc : List Nat → Option (List Nat)) (s : List Nat),
      normalize nfc s
        = if (List.splitOn 0 s).all (fun r => r.isEmpty || (nfc r).isSome) then
            joinWithNul ((List.splitOn 0 s).map
              fun r => if r.isEmpty then [] else (nfc r).getD [])
          else [] := by
  intro nfc s
  unfold normalize
  rw [normalizeLoop_splitOn nfc s.length s le_rfl]
  by_cases hall : (List.splitOn 0 s).all (fun r => r.isEmpty || (nfc r).isSome) <;>
    simp [hall]

/-- C9: a name that is the output of escapefsincompatible and contains no
    remaining filesystem-incompatible bytes is left unchanged by a second
    application of escapefsincompatible. -/
theorem C9_escape_idempotent :
    ∀ (x y : List Nat), y = escapefsincompatible x →
      (∀ b ∈ y, islocalfscompatible b = true) →
      escapefsincompatible y = y := by
  intro x y hy hcompat
  have hdots := escape_ne_dots x
  rw [← hy] at hdots
  unfold escapefsincompatible
  rw [if_neg hdots.2, if_neg hdots.1]
  exact escapeAll_of_compat hcompat

/-- C9 witness: escaping ":" (byte 58) gives "%3a", which escapes to itself. -/
theorem C9_escape_idempotent_witness :
    escapefsincompatible (escapefsincompatible [58]) = escapefsincompatible [58] :=
  C9_escape_idempotent [58] (escapefsincompatible [58]) rfl (by decide)

/-- C10: a non-immediate notification addressed to the EXTRA queue is never
    dropped by the self-notification check, whatever the sync context says: it
    is either merged into a matching tail entry by the dedup rule or appended
    to the EXTRA queue. -/
theorem C10_extra_not_suppressed :
    ∀ (nq : NotifyQueues) (sync : Option SyncEnv) (ds : Nat) (l : Option Nat)
      (path : List Nat),
      notify nq sync ds NotifyQueue.EXTRA l path false =
        if dedupHit (getq nq NotifyQueue.EXTRA) NotifyQueue.EXTRA l path then
          setq nq NotifyQueue.EXTRA (refreshTail (getq nq NotifyQueue.EXTRA) false ds)
        else setq nq NotifyQueue.EXTRA (getq nq NotifyQueue.EXTRA ++ [⟨ds, l, path⟩]) := by
  intro nq sync ds l path
  unfold notify
  by_cases hd : dedupHit (getq nq NotifyQueue.EXTRA) NotifyQueue.EXTRA l path
  · simp [hd]
  · cases sync with
    | none => simp [hd]
    | some env => simp [hd]

end mega
